import Mathlib

/-!
Verification of the EsProcessing migration utility (src/EsProcessing.py).

The Python code is shallowly embedded as follows:
* Python strings are `List Char` (`Str`), so that structural facts about
  joining and splitting can be proved by list induction.
* JSON values decoded by `resp.json()` / `json.load` are the inductive `JVal`;
  Python truthiness of such a value is `JVal.falsy`.
* Exceptions are the enumeration `PyErr`; a function that can raise returns
  `Except PyErr _` or a `(trace, Option PyErr)` pair.
* Side effects (HTTP requests, file writes) are recorded in a trace of
  `Act` values; the HTTP server and the local filesystem are abstracted
  as functions supplied through `Env`.
* The potentially diverging scroll loop takes a fuel parameter and returns
  `none` when the fuel is exhausted.
-/

abbrev Str := List Char

/-- Last character is `'/'` — embeds Python `s.endswith('/')`. -/
def endsSlash (s : Str) : Bool := s.getLast? == some '/'

/-- Python `s.endswith(suf)`: the last `suf.length` characters equal `suf`. -/
def endswith (s suf : Str) : Bool := decide (List.drop (s.length - suf.length) s = suf)

/-- Python `s.strip('.')`: remove leading and trailing dots. -/
def stripDots (s : Str) : Str :=
  ((s.dropWhile (· == '.')).reverse.dropWhile (· == '.')).reverse

/-- Python `os.path.join(a, b)` for a two-component join: an absolute second
component replaces the first; otherwise a single `/` separates them unless the
first component is empty or already ends with `/`. -/
def osJoin (a b : Str) : Str :=
  if b.head? == some '/' then b
  else if a.isEmpty || endsSlash a then a ++ b
  else a ++ '/' :: b

/-- `EsProcessing.make_url` (src/EsProcessing.py lines 37-46): normalise the
trailing slash of `uri`, join the truthy path segments with `/`, and append
`?k=v&…` when the parameter string is nonempty.  A `None` segment of the
Python call is passed here as `[]`; both are falsy and dropped identically. -/
def make_url (uri : Str) (path : List Str) (params : List (Str × Str)) : Str :=
  let uri2 := if endsSlash uri then uri else uri ++ ['/']
  let p := List.intercalate ['/'] (path.filter (fun s => !s.isEmpty))
  let q := List.intercalate ['&'] (params.map (fun kv => kv.1 ++ '=' :: kv.2))
  if q.isEmpty then uri2 ++ p else uri2 ++ p ++ '?' :: q

/-- The default `.json` extension of `make_fp`. -/
def jsonExt : Str := ".json".data

/-- `EsProcessing.make_fp` (lines 48-51): dot-join the stripped truthy name
components, prepend the directory, append the extension. -/
def make_fp (path : Str) (args : List Str) (ext : Str := jsonExt) : Str :=
  let fp := List.intercalate ['.'] ((args.filter (fun s => !s.isEmpty)).map stripDots)
  osJoin path fp ++ ext

/-- JSON values, as decoded by Python's `json` module. -/
inductive JVal where
  | null : JVal
  | bool : Bool → JVal
  | num : Int → JVal
  | str : Str → JVal
  | arr : List JVal → JVal
  | obj : List (Str × JVal) → JVal

/-- Python truthiness of a decoded JSON value. -/
def JVal.falsy : JVal → Bool
  | .null => true
  | .bool b => !b
  | .num n => n == 0
  | .str s => s.isEmpty
  | .arr l => l.isEmpty
  | .obj f => f.isEmpty

/-- Key lookup in a decoded JSON object (Python dicts have unique keys, so
first-match lookup agrees with dict indexing). -/
def alookup : List (Str × JVal) → Str → Option JVal
  | [], _ => none
  | (k, v) :: rest, key => if k = key then some v else alookup rest key

/-- Python `key in data` for a decoded JSON object. -/
def hasKey (d : List (Str × JVal)) (k : Str) : Bool := (alookup d k).isSome

/-- Truthiness of `d.get(k)`: `None` (absent) and falsy values both count. -/
def jfalsyO : Option JVal → Bool
  | none => true
  | some v => v.falsy

/-- The exceptions the embedded code can raise.  `invalidRequest` and
`mappingNotFound` are the two `AttributeError`s of `query_from_url`;
`directoryNotFound` and `fileNotFound` are the `IOError`s of `save`/`upload`;
`keyError`, `noGetAttr`, `typeError` and `indexError` are the dynamic errors
Python raises on malformed data (`data[k]` on a missing key, `.get` on a
non-dict, subscripting a non-dict, `list[1]` on a short list); `fuel` is the
model's marker for an out-of-fuel scroll loop and has no Python counterpart. -/
inductive PyErr where
  | invalidRequest
  | mappingNotFound
  | directoryNotFound
  | fileNotFound
  | keyError
  | noGetAttr
  | typeError
  | indexError
  | fuel
deriving DecidableEq

/-- `EsProcessing.query_from_url` (lines 53-73) after the HTTP layer: `data`
is the parsed response body (an object).  An `error` key raises the
`invalidRequest` AttributeError; with a truthy configured index, a missing
index key raises `KeyError`, a non-object index value raises an
AttributeError on `.get`, and an absent-or-falsy `mappings` value raises the
`mappingNotFound` AttributeError; otherwise the body is returned unchanged. -/
def query_from_url (index_name : Option Str) (data : List (Str × JVal)) :
    Except PyErr (List (Str × JVal)) :=
  if hasKey data "error".data then .error .invalidRequest
  else
    match index_name with
    | none => .ok data
    | some idx =>
      if idx.isEmpty then .ok data
      else
        match alookup data idx with
        | none => .error .keyError
        | some (.obj fields) =>
          if jfalsyO (alookup fields "mappings".data) then .error .mappingNotFound
          else .ok data
        | some _ => .error .noGetAttr

example : query_from_url (some "test".data) [] = .error .keyError := rfl
example :
    query_from_url (some "test".data) [("error".data, .str "e".data)] =
      .error .invalidRequest := rfl

/-- A yielded record of `query_mappings`: index name, type name, and the
type's `properties` value (absent when the type mapping has none). -/
structure MappingRecord where
  index : Str
  type : Str
  schema : Option JVal

/-- The index-level keys excluded by `query_mappings` (line 79). -/
def excludes : List Str := ["_default_".data, "_all".data, "properties".data]

/-- `data[i]['mappings']` for one index value (line 81): the value must be an
object containing a `mappings` key whose value is again an object; a missing
key raises `KeyError`, a non-object index value or `mappings` value raises a
dynamic error (collapsed to `typeError`; such bodies hold no type tables). -/
def getMappings : JVal → Except PyErr (List (Str × JVal))
  | .obj fields =>
    match alookup fields "mappings".data with
    | none => .error .keyError
    | some (.obj m) => .ok m
    | some _ => .error .typeError
  | _ => .error .typeError

/-- `mappings[m].get('properties')` (line 88): `.get` on a non-object raises
an AttributeError. -/
def pyGetProps : JVal → Except PyErr (Option JVal)
  | .obj fields => .ok (alookup fields "properties".data)
  | _ => .error .noGetAttr

/-- The inner loop of `query_mappings` (lines 83-88) over one index's type
table: skip excluded keys, yield a record per remaining key.  Being a
generator, the records yielded before a raise are still delivered, so the
result is the yielded list together with the optional error that follows. -/
def collectTypes (i : Str) : List (Str × JVal) → List MappingRecord × Option PyErr
  | [] => ([], none)
  | (m, tv) :: rest =>
    if m ∈ excludes then collectTypes i rest
    else
      match pyGetProps tv with
      | .error e => ([], some e)
      | .ok props =>
        let (rs, e) := collectTypes i rest
        (⟨i, m, props⟩ :: rs, e)

/-- The outer loop of `query_mappings` (lines 80-88) over the parsed body:
for each index, yield the records of its type table. -/
def query_mappings_body : List (Str × JVal) → List MappingRecord × Option PyErr
  | [] => ([], none)
  | (i, v) :: rest =>
    match getMappings v with
    | .error e => ([], some e)
    | .ok m =>
      match collectTypes i m with
      | (rs, some e) => (rs, some e)
      | (rs, none) =>
        let (rs', e') := query_mappings_body rest
        (rs ++ rs', e')

/-- One parsed scroll response: the optional `_scroll_id` cursor and the
`hits.hits` list (responses of other shapes raise before reaching the scroll
logic and are outside the sessions the claims quantify over). -/
structure ScrollResp (α : Type) where
  scroll_id : Option Str
  hits : List α

/-- The `while True` loop of `scroll_data` (lines 118-134): request the next
batch with the current cursor, yield every hit of the response in order, then
stop if the response carries no cursor or an empty hit list, else continue
with the response's cursor.  `cont` abstracts the server's reply to a
continuation request with a given cursor; `fuel` bounds the iteration count,
`none` meaning the loop did not finish within the fuel. -/
def scrollLoop (cont : Str → ScrollResp α) : Nat → Str → Option (List α × List Str)
  | 0, _ => none
  | fuel + 1, sid =>
    let resp := cont sid
    match resp.scroll_id with
    | none => some (resp.hits, [sid])
    | some sid2 =>
      if resp.hits.isEmpty then some (resp.hits, [sid])
      else
        match scrollLoop cont fuel sid2 with
        | none => none
        | some (hs, reqs) => some (resp.hits ++ hs, sid :: reqs)

/-- `EsProcessing.scroll_data` (lines 101-134): `init` is the response to the
initial search request; if it carries no cursor the generator returns at once
(line 115-116) — the initial response's hit list is never yielded — otherwise
the continuation loop runs.  The result pairs the yielded hits with the list
of cursors sent in continuation requests, in order. -/
def scroll_data (init : ScrollResp α) (cont : Str → ScrollResp α) (fuel : Nat) :
    Option (List α × List Str) :=
  match init.scroll_id with
  | none => some ([], [])
  | some sid => scrollLoop cont fuel sid

/-- A Document Hit as persisted in a document file: the `_id` and `_source`
values of the stored object (`None` when the key is absent; `_id` is kept
string-valued as in the data model, since a non-string id would not join
into a URL). -/
structure Hit where
  _id : Option Str
  _source : Option JVal

/-- Content of a local `.json` file: a decoded JSON value (mapping files) or
an array of Document Hits (document files). -/
inductive FileContent where
  | json : JVal → FileContent
  | docs : List Hit → FileContent

/-- Observable side effects, in program order. -/
inductive Act where
  | httpGet : Str → Act
  | putJson : Str → FileContent → Act
  | putDoc : Str → Option JVal → Act
  | writeMapping : Str → Option JVal → Act
  | writeDocs : Str → List Hit → Act

/-- The environment of one `EsProcessing` instance: its constructor fields
plus the abstracted HTTP server and filesystem.  `dirExists` is the value
`os.path.exists(dirname)` returns; `files p` is the decoded content of the
file at path `p` (`none` when absent); `listing` is the flattened list of
file names `os.walk(dirname)` yields; `scrollInit index type` is the parsed
response to the initial search request for that type and `scrollCont sid`
the parsed response to a scroll continuation with cursor `sid`;
`mappingBody` is the parsed body of the `_mapping` GET. -/
structure Env where
  uri : Str
  index_name : Option Str
  dirname : Option Str
  dirExists : Bool
  mappingBody : List (Str × JVal)
  scrollInit : Str → Str → ScrollResp Hit
  scrollCont : Str → ScrollResp Hit
  files : Str → Option FileContent
  listing : List Str

/-- The `self.dirname and os.path.exists(self.dirname)` guard of `save`
(line 154) and `upload` (line 211). -/
def dirOk (env : Env) : Bool :=
  (match env.dirname with
   | none => false
   | some d => !d.isEmpty) && env.dirExists

/-- Sequencing of two traced computations: if the first raises, the second
never runs and the first's error propagates unchanged (the Python
`try: …; … except Exception: raise`). -/
def pseq (a b : List Act × Option PyErr) : List Act × Option PyErr :=
  match a.2 with
  | some e => (a.1, some e)
  | none => (a.1 ++ b.1, b.2)

/-- The `_mapping` GET URL of `query_from_url` (line 58). -/
def mapping_url (env : Env) : Str :=
  make_url env.uri [env.index_name.getD [], "_mapping".data] []

/-- `EsProcessing.query_mappings` (lines 75-88) with the HTTP layer
abstracted: run the `query_from_url` checks on the environment's mapping
body, then iterate it into records. -/
def query_mappings (env : Env) : List MappingRecord × Option PyErr :=
  match query_from_url env.index_name env.mappingBody with
  | .error e => ([], some e)
  | .ok data => query_mappings_body data

/-- `EsProcessing.dump_mapping` (lines 90-99): consume `query_mappings`
(whose first step issues the `_mapping` GET) and write one mapping file per
record.  When `dirname` is unset Python's `os.path.join(None, _)` would
raise; the model substitutes `[]`, a corner unreachable from the guarded
entry point `save`. -/
def dump_mapping (env : Env) : List Act × Option PyErr :=
  let (recs, err) := query_mappings env
  (.httpGet (mapping_url env) ::
    recs.map (fun r =>
      .writeMapping (make_fp (env.dirname.getD []) [r.index, r.type, "mapping".data] jsonExt)
        r.schema),
   err)

/-- The initial search URL of `scroll_data` (lines 110-111). -/
def scroll_init_url (uri index_name type_name ttl : Str) : Str :=
  make_url uri [index_name, type_name, "_search".data]
    [("scroll".data, ttl), ("search_type".data, "scan".data)]

/-- The continuation URL of `scroll_data` (lines 125-126). -/
def scroll_cont_url (uri ttl sid : Str) : Str :=
  make_url uri ["_search/scroll".data]
    [("search_type".data, "scan".data), ("scroll".data, ttl), ("scroll_id".data, sid)]

/-- The loop body of `dump_data` (lines 138-151) over the mapping records:
drain the scroll sequence of each record's (index, type) and write the hits
to the document file.  The trace records the initial search GET and one GET
per continuation cursor. -/
def dump_records (env : Env) (fuel : Nat) : List MappingRecord → List Act × Option PyErr
  | [] => ([], none)
  | r :: rest =>
    let initUrl := scroll_init_url env.uri r.index r.type "1m".data
    match scroll_data (env.scrollInit r.index r.type) env.scrollCont fuel with
    | none => ([.httpGet initUrl], some .fuel)
    | some (hs, reqs) =>
      let fp := make_fp (env.dirname.getD []) [r.index, r.type] jsonExt
      let tr := Act.httpGet initUrl ::
        (reqs.map (fun c => Act.httpGet (scroll_cont_url env.uri "1m".data c)) ++
          [Act.writeDocs fp hs])
      let (tr', e') := dump_records env fuel rest
      (tr ++ tr', e')

/-- `EsProcessing.dump_data` (lines 136-151): its own `query_mappings` pass
(hence its own `_mapping` GET), then one scroll-and-write per record.  The
generator raises its error only at the `next()` after the last good record,
so a record-level error takes precedence over the trailing query error. -/
def dump_data (env : Env) (fuel : Nat) : List Act × Option PyErr :=
  let (recs, err) := query_mappings env
  let (tr, e) := dump_records env fuel recs
  (.httpGet (mapping_url env) :: tr,
   match e with
   | some e' => some e'
   | none => err)

/-- `EsProcessing.save` (lines 153-161): guard on the directory, then
`dump_mapping` followed by `dump_data`; the bare `except Exception: raise`
re-raises unchanged. -/
def save (env : Env) (fuel : Nat) : List Act × Option PyErr :=
  if dirOk env then pseq (dump_mapping env) (dump_data env fuel)
  else ([], some .directoryNotFound)

/-- `EsProcessing.upload_mapping` (lines 163-179): raise `fileNotFound` when
the mapping file is absent, else PUT its decoded content to the type's
mapping endpoint. -/
def upload_mapping (env : Env) (type_name : Str) : List Act × Option PyErr :=
  let url := make_url env.uri [env.index_name.getD [], "_mapping".data, type_name] []
  let fp := make_fp (env.dirname.getD [])
    [env.index_name.getD [], type_name, "mapping".data] jsonExt
  match env.files fp with
  | none => ([], some .fileNotFound)
  | some c => ([.putJson url c], none)

/-- The per-document PUT of `upload_data` (lines 194-203): the URL is built
from the configured index, the type and the hit's `_id` (a falsy id is
dropped by `make_url`) with `op_type=create`, and the body is the hit's
`_source` value. -/
def mkPut (uri : Str) (index_name : Option Str) (type_name : Str) (h : Hit) : Act :=
  .putDoc
    (make_url uri [index_name.getD [], type_name, h._id.getD []]
      [("op_type".data, "create".data)])
    h._source

/-- The `for i in data` loop of `upload_data`: one PUT per hit, in file
order; nothing is checked locally, so duplicate ids pass through. -/
def put_docs (uri : Str) (index_name : Option Str) (type_name : Str) : List Hit → List Act
  | [] => []
  | h :: rest => mkPut uri index_name type_name h :: put_docs uri index_name type_name rest

/-- `EsProcessing.upload_data` (lines 181-203): raise `fileNotFound` when the
document file is absent, else PUT every hit.  Document files hold arrays of
Document Hits (the data-model shape the Exporter writes); a file decoding to
some other JSON shape is outside the model and collapses to `typeError`. -/
def upload_data (env : Env) (type_name : Str) : List Act × Option PyErr :=
  let fp := make_fp (env.dirname.getD []) [env.index_name.getD [], type_name] jsonExt
  match env.files fp with
  | none => ([], some .fileNotFound)
  | some (.json _) => ([], some .typeError)
  | some (.docs hits) => (put_docs env.uri env.index_name type_name hits, none)

/-- The stem `os.path.splitext(f)[0]` of a file name: everything before the
last dot, unless every character before the last dot is itself a dot, in
which case there is no extension. -/
def splitextStem (f : Str) : Str :=
  let parts := f.splitOn '.'
  if parts.length ≤ 1 then f
  else if parts.dropLast.all (fun p => p.isEmpty) then f
  else List.intercalate ['.'] parts.dropLast

/-- The type-name derivation of `upload`'s directory scan (line 223):
`os.path.splitext(f)[0].rsplit('.')[1]`.  `rsplit('.')` with no maxsplit
splits at every dot, so `[1]` is the second component from the left; a
one-component stem raises `IndexError` (`none`). -/
def derive_type_name (f : Str) : Option Str :=
  ((splitextStem f).splitOn '.').get? 1

/-- The directory-scan loop of `upload` (lines 219-225): for each listed
file name ending in `.json`, derive a type name and upload that type's
mapping and documents; any raise aborts the scan. -/
def uploadFiles (env : Env) : List Str → List Act × Option PyErr
  | [] => ([], none)
  | f :: rest =>
    if endswith f ".json".data then
      match derive_type_name f with
      | none => ([], some .indexError)
      | some t =>
        pseq (upload_mapping env t) (pseq (upload_data env t) (uploadFiles env rest))
    else uploadFiles env rest

/-- `EsProcessing.upload` (lines 205-227): guard on the directory, then
either upload the one given truthy type, or scan the directory listing. -/
def upload (env : Env) (type_name : Option Str) : List Act × Option PyErr :=
  if dirOk env then
    match type_name with
    | some t =>
      if t.isEmpty then uploadFiles env env.listing
      else pseq (upload_mapping env t) (upload_data env t)
    | none => uploadFiles env env.listing
  else ([], some .directoryNotFound)

example : derive_type_name "test.data.mapping.json".data = some "data".data := by decide
example : derive_type_name "test.data.json".data = some "data".data := by decide
example : derive_type_name "test.json".data = none := by decide
example : derive_type_name "ems-log-2015.09.15.data.json".data = some "09".data := by decide
example : make_fp "dir".data ["test".data] = "dir/test.json".data := by decide
example :
    make_url "uri".data ["index".data, "_search".data] [("format".data, "pretty".data)] =
      "uri/index/_search?format=pretty".data := by decide

/-- The relation between one continuation cursor and the next: the response
to the first carries the second as its cursor and a nonempty hit list (the
loop's continue condition, line 133 negated). -/
def scrollStep (cont : Str → ScrollResp α) (a b : Str) : Prop :=
  (cont a).scroll_id = some b ∧ (cont a).hits ≠ []

/-- The loop's break condition at cursor `z` (line 133): the response carries
no cursor, or its hit list is empty. -/
def scrollStop (cont : Str → ScrollResp α) (z : Str) : Bool :=
  (cont z).scroll_id.isNone || (cont z).hits.isEmpty

/-- The cursor the loop would continue with after requesting `a` (`none`
when it breaks instead). -/
def scrollNext (cont : Str → ScrollResp α) (a : Str) : Option Str :=
  match (cont a).scroll_id with
  | none => none
  | some b => if (cont a).hits.isEmpty then none else some b

lemma scrollStep_iff_next (cont : Str → ScrollResp α) (a b : Str) :
    scrollStep cont a b ↔ scrollNext cont a = some b := by
  unfold scrollStep scrollNext
  cases hsid : (cont a).scroll_id with
  | none => simp
  | some c =>
    cases hemp : (cont a).hits.isEmpty <;> simp_all

lemma scrollStop_iff_next (cont : Str → ScrollResp α) (z : Str) :
    scrollStop cont z = true ↔ scrollNext cont z = none := by
  unfold scrollStop scrollNext
  cases hsid : (cont z).scroll_id with
  | none => simp
  | some c =>
    cases hemp : (cont z).hits.isEmpty <;> simp_all

lemma scrollLoop_spec (cont : Str → ScrollResp α) :
    ∀ fuel sid hits reqs, scrollLoop cont fuel sid = some (hits, reqs) →
      reqs.head? = some sid ∧ List.Chain' (scrollStep cont) reqs ∧
      reqs.getLast?.all (scrollStop cont) = true := by
  intro fuel
  induction fuel with
  | zero => intro sid hits reqs h; simp [scrollLoop] at h
  | succ n ih =>
    intro sid hits reqs h
    simp only [scrollLoop] at h
    cases hsid : (cont sid).scroll_id with
    | none =>
      rw [hsid] at h
      simp only [Option.some.injEq, Prod.mk.injEq] at h
      obtain ⟨-, rfl⟩ := h
      refine ⟨rfl, List.chain'_singleton sid, ?_⟩
      simp [scrollStop, hsid]
    | some sid2 =>
      rw [hsid] at h
      cases hemp : (cont sid).hits.isEmpty with
      | true =>
        rw [hemp] at h
        simp only [if_true, Option.some.injEq, Prod.mk.injEq] at h
        obtain ⟨-, rfl⟩ := h
        refine ⟨rfl, List.chain'_singleton sid, ?_⟩
        simp [scrollStop, hemp]
      | false =>
        rw [hemp] at h
        simp only [if_false, Bool.false_eq_true] at h
        cases hrec : scrollLoop cont n sid2 with
        | none => rw [hrec] at h; simp at h
        | some p =>
          obtain ⟨hs, rq⟩ := p
          rw [hrec] at h
          simp only [Option.some.injEq, Prod.mk.injEq] at h
          obtain ⟨-, rfl⟩ := h
          obtain ⟨ih1, ih2, ih3⟩ := ih sid2 hs rq hrec
          refine ⟨rfl, ?_, ?_⟩
          · rw [List.chain'_cons']
            refine ⟨?_, ih2⟩
            intro y hy
            rw [ih1, Option.mem_some_iff] at hy
            subst hy
            exact ⟨hsid, fun hnil => by simp [hnil] at hemp⟩
          · cases rq with
            | nil => simp at ih1
            | cons a l => rw [List.getLast?_cons_cons]; exact ih3

/-- A finite trace of a deterministic iteration that continues while `g`
yields a successor and stops exactly when `g` yields `none` can never visit
the same point twice: the step after a repeated point would be both defined
and undefined. -/
lemma iter_nodup (g : Str → Option Str) (l : List Str)
    (hadj : ∀ i, (h : i + 1 < l.length) →
      g (l.get ⟨i, by omega⟩) = some (l.get ⟨i + 1, h⟩))
    (hlast : ∀ z, l.getLast? = some z → g z = none) : l.Nodup := by
  have main : ∀ k i j (_ : i < j) (hj : j < l.length) (hi : i < l.length),
      l.length - 1 - j = k → l.get ⟨i, hi⟩ = l.get ⟨j, hj⟩ → False := by
    intro k
    induction k with
    | zero =>
      intro i j hij hj hi hk heq
      have hi1 : i + 1 < l.length := by omega
      have h1 := hadj i hi1
      have hj1 : j = l.length - 1 := by omega
      have h2 : l.getLast? = some (l.get ⟨j, hj⟩) := by
        rw [List.getLast?_eq_getElem?, List.getElem?_eq_getElem (by omega : l.length - 1 < l.length)]
        subst hj1
        rfl
      have h3 := hlast _ h2
      rw [heq, h3] at h1
      exact Option.noConfusion h1
    | succ k ihk =>
      intro i j hij hj hi hk heq
      have hi1 : i + 1 < l.length := by omega
      have hj1 : j + 1 < l.length := by omega
      have h1 := hadj i hi1
      have h2 := hadj j hj1
      rw [heq, h2] at h1
      have h4 : l.get ⟨j + 1, hj1⟩ = l.get ⟨i + 1, hi1⟩ := by
        injection h1
      exact ihk (i + 1) (j + 1) (by omega) hj1 hi1 (by omega) h4.symm
  rw [List.nodup_iff_getElem?_ne_getElem?]
  intro i j hij hj heq
  have hi : i < l.length := by omega
  rw [List.getElem?_eq_getElem hi, List.getElem?_eq_getElem hj] at heq
  have heq' : l.get ⟨i, hi⟩ = l.get ⟨j, hj⟩ := by injection heq
  exact main (l.length - 1 - j) i j hij hj hi rfl heq'

/-- C2: in every terminating scroll session, the first continuation request
carries exactly the initial response's cursor and each later one exactly the
cursor of the immediately preceding response (`Chain'` of `scrollStep`, which
also states that every non-final response carried a cursor and a nonempty hit
list, i.e. the loop never stops early); the loop stops exactly at the first
response with no cursor or an empty hit list (`scrollStop` at the last
request); and consequently no cursor is ever sent in two requests
(`reqs.Nodup`). -/
theorem scroll_cursor_discipline (init : ScrollResp α) (cont : Str → ScrollResp α)
    (fuel : Nat) (hits : List α) (reqs : List Str)
    (h : scroll_data init cont fuel = some (hits, reqs)) :
    reqs.head? = init.scroll_id ∧
    List.Chain' (scrollStep cont) reqs ∧
    reqs.getLast?.all (scrollStop cont) = true ∧
    reqs.Nodup := by
  unfold scroll_data at h
  cases hsid : init.scroll_id with
  | none =>
    rw [hsid] at h
    simp only [Option.some.injEq, Prod.mk.injEq] at h
    obtain ⟨-, rfl⟩ := h
    exact ⟨rfl, List.chain'_nil, rfl, List.nodup_nil⟩
  | some sid =>
    rw [hsid] at h
    obtain ⟨h1, h2, h3⟩ := scrollLoop_spec cont fuel sid hits reqs h
    refine ⟨by rw [h1], h2, h3, ?_⟩
    apply iter_nodup (scrollNext cont)
    · intro i hi
      have hc := List.chain'_iff_get.mp h2 i (by omega)
      exact (scrollStep_iff_next cont _ _).mp hc
    · intro z hz
      rw [hz] at h3
      simp only [Option.all_some] at h3
      exact (scrollStop_iff_next cont z).mp h3

/-- One unfolding step of the scroll loop with positive fuel. -/
lemma scrollLoop_succ (cont : Str → ScrollResp α) (fuel : Nat) (sid : Str) :
    scrollLoop cont (fuel + 1) sid =
      match (cont sid).scroll_id with
      | none => some ((cont sid).hits, [sid])
      | some sid2 =>
        if (cont sid).hits.isEmpty then some ((cont sid).hits, [sid])
        else
          match scrollLoop cont fuel sid2 with
          | none => none
          | some (hs, reqs) => some ((cont sid).hits ++ hs, sid :: reqs) := rfl

/-- A demonstration continuation server: cursor `C1` answers with cursor `C2`
and one hit, any other cursor with no cursor and no hits. -/
def demoCont : Str → ScrollResp Nat := fun s =>
  if s = "C1".data then ⟨some "C2".data, [3]⟩ else ⟨none, []⟩

/-- C1 fails as stated: in the session whose initial response carries cursor
`C1` and the two hits `1, 2`, whose continuation at `C1` carries cursor `C2`
and the one hit `3`, and whose continuation at `C2` carries no cursor,
`scroll_data` yields only `[3]` — the initial response's two hits are never
yielded (line 112-116 reads only `_scroll_id` from the initial response). -/
theorem scroll_initial_hits_not_yielded :
    scroll_data (⟨some "C1".data, [1, 2]⟩ : ScrollResp Nat) demoCont 10 =
      some ([3], ["C1".data, "C2".data]) ∧ ([3] : List Nat) ≠ [1, 2, 3] :=
  ⟨rfl, by decide⟩

/-- C1 (amended): when the initial response carries cursor `c0`, the
continuation requested with `c0` carries cursor `c1` and two hits, the
continuation requested with `c1` carries cursor `c2` and one hit, and the
continuation requested with `c2` carries no cursor (and no hits), `scroll`
yields exactly the three hits in server order — the two from the first
continuation response followed by the one from the second — and terminates,
having sent exactly the cursors `c0, c1, c2`. -/
theorem scroll_three_batches (init : ScrollResp α) (cont : Str → ScrollResp α)
    (c0 c1 c2 : Str) (h1 h2 h3 : α) (fuel : Nat) (hfuel : 3 ≤ fuel)
    (hinit : init.scroll_id = some c0)
    (hc0 : cont c0 = ⟨some c1, [h1, h2]⟩)
    (hc1 : cont c1 = ⟨some c2, [h3]⟩)
    (hc2 : cont c2 = ⟨none, []⟩) :
    scroll_data init cont fuel = some ([h1, h2, h3], [c0, c1, c2]) := by
  obtain ⟨k, rfl⟩ : ∃ k, fuel = k + 3 := ⟨fuel - 3, by omega⟩
  have e2 : scrollLoop cont (k + 1) c2 = some ([], [c2]) := by
    rw [scrollLoop_succ, hc2]
  have e1 : scrollLoop cont (k + 2) c1 = some ([h3], [c1, c2]) := by
    rw [show k + 2 = (k + 1) + 1 from rfl, scrollLoop_succ, hc1]
    simp [e2]
  have e0 : scrollLoop cont (k + 3) c0 = some ([h1, h2, h3], [c0, c1, c2]) := by
    rw [show k + 3 = (k + 2) + 1 from rfl, scrollLoop_succ, hc0]
    simp [e1]
  unfold scroll_data
  rw [hinit]
  exact e0

/-- A demonstration three-response server for the amended C1 scenario. -/
def demoCont3 : Str → ScrollResp Nat := fun s =>
  if s = "A".data then ⟨some "B".data, [1, 2]⟩
  else if s = "B".data then ⟨some "C".data, [3]⟩
  else ⟨none, []⟩

/-- Witness for `scroll_three_batches` at a concrete session. -/
theorem scroll_three_batches_witness :
    scroll_data (⟨some "A".data, []⟩ : ScrollResp Nat) demoCont3 5 =
      some ([1, 2, 3], ["A".data, "B".data, "C".data]) :=
  scroll_three_batches ⟨some "A".data, []⟩ demoCont3 "A".data "B".data "C".data
    1 2 3 5 (by decide) rfl rfl rfl rfl

/-- Witness for `scroll_cursor_discipline` at a concrete session. -/
theorem scroll_cursor_discipline_witness :
    (["A".data, "B".data, "C".data] : List Str).head? =
        (⟨some "A".data, ([] : List Nat)⟩ : ScrollResp Nat).scroll_id ∧
      List.Chain' (scrollStep demoCont3) ["A".data, "B".data, "C".data] ∧
      (["A".data, "B".data, "C".data] : List Str).getLast?.all (scrollStop demoCont3) = true ∧
      (["A".data, "B".data, "C".data] : List Str).Nodup :=
  scroll_cursor_discipline ⟨some "A".data, []⟩ demoCont3 5 [1, 2, 3]
    ["A".data, "B".data, "C".data] rfl

/-- C9: when the initial search response carries no scroll cursor,
`scroll_data` yields no hits, returns without error, and sends no
continuation request at all. -/
theorem scroll_no_cursor_empty (init : ScrollResp α) (cont : Str → ScrollResp α)
    (fuel : Nat) (h : init.scroll_id = none) :
    scroll_data init cont fuel = some ([], []) := by
  unfold scroll_data
  rw [h]

/-- Witness for `scroll_no_cursor_empty` at a concrete session. -/
theorem scroll_no_cursor_empty_witness :
    scroll_data (⟨none, [7]⟩ : ScrollResp Nat) demoCont3 0 = some ([], []) :=
  scroll_no_cursor_empty ⟨none, [7]⟩ demoCont3 0 rfl

/-- C3 fails as stated: a body without an `error` key that also lacks the
configured index makes `query_from_url` raise `KeyError` (line 69 indexes
`data[self.index_name]` unguarded) — neither `MappingNotFound` nor the
unchanged return the claim requires. -/
theorem query_missing_index_not_mapping_error :
    query_from_url (some "test".data) [] = .error .keyError ∧
    PyErr.keyError ≠ PyErr.mappingNotFound ∧
    query_from_url (some "test".data) [] ≠ .ok [] := by
  refine ⟨rfl, by decide, fun h => ?_⟩
  exact Except.noConfusion h

/-- C3 (amended): for every parsed mapping-query body and nonempty configured
index: an `error` key fails with `invalidRequest`; otherwise, a body lacking
the index key fails with `keyError`; a body mapping the index to an object
whose `mappings` value is absent or falsy fails with `mappingNotFound`; one
whose `mappings` value is truthy returns the body unchanged; and with no
configured index the body is returned unchanged. -/
theorem query_from_url_cases (idx : Str) (data : List (Str × JVal)) (hidx : idx ≠ []) :
    (hasKey data "error".data = true →
      query_from_url (some idx) data = .error .invalidRequest) ∧
    (hasKey data "error".data = false → alookup data idx = none →
      query_from_url (some idx) data = .error .keyError) ∧
    (hasKey data "error".data = false → ∀ fields, alookup data idx = some (.obj fields) →
      jfalsyO (alookup fields "mappings".data) = true →
      query_from_url (some idx) data = .error .mappingNotFound) ∧
    (hasKey data "error".data = false → ∀ fields, alookup data idx = some (.obj fields) →
      jfalsyO (alookup fields "mappings".data) = false →
      query_from_url (some idx) data = .ok data) ∧
    (hasKey data "error".data = false → query_from_url none data = .ok data) := by
  have hempty : idx.isEmpty = false := by
    cases idx with
    | nil => exact absurd rfl hidx
    | cons c cs => rfl
  refine ⟨?_, ?_, ?_, ?_, ?_⟩
  · intro h
    simp [query_from_url, h]
  · intro h hl
    simp [query_from_url, h, hempty, hl]
  · intro h fields hl hf
    simp [query_from_url, h, hempty, hl, hf]
  · intro h fields hl hf
    simp [query_from_url, h, hempty, hl, hf]
  · intro h
    simp [query_from_url, h]

/-- Witness for `query_from_url_cases` on three concrete bodies. -/
theorem query_from_url_cases_witness :
    query_from_url (some "i".data) [("error".data, JVal.null)] = .error .invalidRequest ∧
    query_from_url (some "i".data) [("i".data, .obj [])] = .error .mappingNotFound ∧
    query_from_url (some "i".data)
        [("i".data, .obj [("mappings".data, .obj [("d".data, .obj [])])])] =
      .ok [("i".data, .obj [("mappings".data, .obj [("d".data, .obj [])])])] :=
  ⟨(query_from_url_cases "i".data [("error".data, JVal.null)] (by decide)).1 rfl,
   (query_from_url_cases "i".data [("i".data, .obj [])] (by decide)).2.2.1 rfl [] rfl rfl,
   (query_from_url_cases "i".data
       [("i".data, .obj [("mappings".data, .obj [("d".data, .obj [])])])]
       (by decide)).2.2.2.1 rfl [("mappings".data, .obj [("d".data, .obj [])])] rfl rfl⟩

/-- A type-level mapping value is an object (the shape `mappings[m].get`
requires). -/
def wfTypeVal : JVal → Bool
  | .obj _ => true
  | _ => false

/-- An index value of a raw mapping document is well formed when it is an
object whose `mappings` value is an object, each of whose non-excluded keys
maps to an object — the data-model shape of a per-index mapping document. -/
def wfIndexVal : JVal → Bool
  | .obj fields =>
    match alookup fields "mappings".data with
    | some (.obj m) => m.all (fun p => decide (p.1 ∈ excludes) || wfTypeVal p.2)
    | _ => false
  | _ => false

/-- A raw mapping document is well formed when every index value is. -/
def wfDoc (data : List (Str × JVal)) : Bool := data.all (fun p => wfIndexVal p.2)

/-- The `properties` value of a type mapping object. -/
def jprops : JVal → Option JVal
  | .obj f => alookup f "properties".data
  | _ => none

/-- The fields of an object value. -/
def objFields : JVal → List (Str × JVal)
  | .obj f => f
  | _ => []

/-- The `mappings` table of an index value. -/
def mappingsOf (v : JVal) : List (Str × JVal) :=
  objFields ((alookup (objFields v) "mappings".data).getD (.obj []))

/-- The records the spec promises for one index: one per type key that is
not in the exclusion set, carrying that type's `properties` value. -/
def typeRecordsSpec (i : Str) (m : List (Str × JVal)) : List MappingRecord :=
  (m.filter (fun p => p.1 ∉ excludes)).map (fun p => ⟨i, p.1, jprops p.2⟩)

/-- The record sequence the spec describes for `mappingRecords()`: for each
index in document order, for each non-excluded type key, one record
`{index, type, schema}`. -/
def mappingRecordsSpec : List (Str × JVal) → List MappingRecord
  | [] => []
  | (i, v) :: rest => typeRecordsSpec i (mappingsOf v) ++ mappingRecordsSpec rest

lemma collectTypes_wf (i : Str) (m : List (Str × JVal))
    (h : ∀ p ∈ m, p.1 ∈ excludes ∨ wfTypeVal p.2 = true) :
    collectTypes i m = (typeRecordsSpec i m, none) := by
  induction m with
  | nil => rfl
  | cons p rest ih =>
    obtain ⟨k, tv⟩ := p
    have hrest := ih (fun q hq => h q (List.mem_cons_of_mem _ hq))
    by_cases hk : k ∈ excludes
    · have e1 : collectTypes i ((k, tv) :: rest) = collectTypes i rest := by
        simp only [collectTypes]
        rw [if_pos hk]
      have e2 : typeRecordsSpec i ((k, tv) :: rest) = typeRecordsSpec i rest := by
        simp [typeRecordsSpec, List.filter_cons, hk]
      rw [e1, e2, hrest]
    · have hwf := (h (k, tv) (List.mem_cons_self _ _)).resolve_left hk
      cases tv with
      | obj f =>
        have e1 : collectTypes i ((k, .obj f) :: rest) =
            (⟨i, k, alookup f "properties".data⟩ :: (collectTypes i rest).1,
              (collectTypes i rest).2) := by
          simp only [collectTypes]
          rw [if_neg hk]
          rfl
        have e2 : typeRecordsSpec i ((k, .obj f) :: rest) =
            ⟨i, k, jprops (.obj f)⟩ :: typeRecordsSpec i rest := by
          simp [typeRecordsSpec, List.filter_cons, hk]
        rw [e1, e2, hrest]
        rfl
      | null => simp [wfTypeVal] at hwf
      | bool b => simp [wfTypeVal] at hwf
      | num n => simp [wfTypeVal] at hwf
      | str s => simp [wfTypeVal] at hwf
      | arr l => simp [wfTypeVal] at hwf

lemma wfIndexVal_elim (v : JVal) (h : wfIndexVal v = true) :
    ∃ fields m, v = .obj fields ∧ alookup fields "mappings".data = some (.obj m) ∧
      ∀ p ∈ m, p.1 ∈ excludes ∨ wfTypeVal p.2 = true := by
  cases v with
  | obj fields =>
    rw [wfIndexVal] at h
    cases hm : alookup fields "mappings".data with
    | none => rw [hm] at h; exact Bool.noConfusion h
    | some mv =>
      cases mv with
      | obj m =>
        rw [hm] at h
        refine ⟨fields, m, rfl, hm, fun q hq => ?_⟩
        have := List.all_eq_true.mp h q hq
        simpa [Bool.or_eq_true, decide_eq_true_eq] using this
      | null => rw [hm] at h; exact Bool.noConfusion h
      | bool b => rw [hm] at h; exact Bool.noConfusion h
      | num n => rw [hm] at h; exact Bool.noConfusion h
      | str s => rw [hm] at h; exact Bool.noConfusion h
      | arr l => rw [hm] at h; exact Bool.noConfusion h
  | null => exact Bool.noConfusion h
  | bool b => exact Bool.noConfusion h
  | num n => exact Bool.noConfusion h
  | str s => exact Bool.noConfusion h
  | arr l => exact Bool.noConfusion h

/-- C8: on every well-formed raw mapping document, `query_mappings` yields,
for each index and each of its type keys outside the exclusion set
`{_default_, _all, properties}`, exactly one record carrying that type's
`properties` value, in document order, and yields no record for an excluded
key — the sequence `mappingRecordsSpec` — and raises nothing. -/
theorem query_mappings_records (data : List (Str × JVal)) (h : wfDoc data = true) :
    query_mappings_body data = (mappingRecordsSpec data, none) := by
  induction data with
  | nil => rfl
  | cons p rest ih =>
    obtain ⟨i, v⟩ := p
    rw [wfDoc, List.all_cons, Bool.and_eq_true] at h
    obtain ⟨hv, hrest⟩ := h
    have ihr := ih hrest
    obtain ⟨fields, m, rfl, hm, hall⟩ := wfIndexVal_elim v hv
    have hct := collectTypes_wf i m hall
    have hgm : getMappings (.obj fields) = .ok m := by
      simp only [getMappings]
      rw [hm]
    have step : query_mappings_body ((i, .obj fields) :: rest) =
        (match collectTypes i m with
          | (rs, some e) => (rs, some e)
          | (rs, none) => (rs ++ (query_mappings_body rest).1, (query_mappings_body rest).2)) := by
      simp only [query_mappings_body]
      rw [hgm]
    have e1 : query_mappings_body ((i, .obj fields) :: rest) =
        (typeRecordsSpec i m ++ (query_mappings_body rest).1,
          (query_mappings_body rest).2) := by
      rw [step, hct]
    have e3 : mappingsOf (.obj fields) = m := by
      simp [mappingsOf, objFields, hm]
    rw [e1, ihr]
    simp only [mappingRecordsSpec]
    rw [e3]

/-- The raw mapping document of the repository's test fixture: index `test`
with type keys `_default_`, `_all`, `properties` and `data`. -/
def demoMappingDoc : List (Str × JVal) :=
  [("test".data, .obj [("mappings".data, .obj
    [("_default_".data, .obj []),
     ("_all".data, .obj []),
     ("properties".data, .obj []),
     ("data".data, .obj [("properties".data,
        .obj [("content".data, .obj []), ("env".data, .obj [])])])])])]

/-- Witness for `query_mappings_records`: the fixture document yields exactly
the one record for type `data`, none for the excluded keys. -/
theorem query_mappings_records_witness :
    query_mappings_body demoMappingDoc =
      ([⟨"test".data, "data".data,
          some (.obj [("content".data, .obj []), ("env".data, .obj [])])⟩], none) := by
  rw [query_mappings_records demoMappingDoc rfl]
  rfl

/-- The two kinds of persisted file. -/
inductive FKind where
  | mapping
  | doc
deriving DecidableEq

/-- The file path the Exporter writes for an (index, type) pair: the mapping
file `{index}.{type}.mapping.json` (line 93) or the document file
`{index}.{type}.json` (line 139). -/
def fpFor (dir i t : Str) : FKind → Str
  | .mapping => make_fp dir [i, t, "mapping".data] jsonExt
  | .doc => make_fp dir [i, t] jsonExt

/-- C5 fails as stated: `make_fp` is not injective on (index, type, kind).
Index `a.b` with type `c` and index `a` with type `b.c` collide on the same
document path, and the document file of type `b.mapping` collides with the
mapping file of type `b`. -/
theorem make_fp_not_injective :
    fpFor "d".data "a.b".data "c".data .doc = fpFor "d".data "a".data "b.c".data .doc ∧
    "a.b".data ≠ "a".data ∧
    fpFor "d".data "a".data "b.mapping".data .doc = fpFor "d".data "a".data "b".data .mapping ∧
    FKind.doc ≠ FKind.mapping :=
  ⟨by decide, by decide, by decide, by decide⟩

lemma append_dot_inj (x y a b : Str) (hx : '.' ∉ x) (hy : '.' ∉ y)
    (h : x ++ '.' :: a = y ++ '.' :: b) : x = y ∧ a = b := by
  induction x generalizing y with
  | nil =>
    cases y with
    | nil => simpa using h
    | cons d ds =>
      simp only [List.nil_append, List.cons_append, List.cons.injEq] at h
      obtain ⟨h1, -⟩ := h
      exact absurd (by rw [← h1]; exact List.mem_cons_self _ _) hy
  | cons c cs ih =>
    cases y with
    | nil =>
      simp only [List.cons_append, List.nil_append, List.cons.injEq] at h
      obtain ⟨h1, -⟩ := h
      exact absurd (by rw [h1]; exact List.mem_cons_self _ _) hx
    | cons d ds =>
      simp only [List.cons_append, List.cons.injEq] at h
      obtain ⟨h1, h2⟩ := h
      have hx' : '.' ∉ cs := fun hm => hx (List.mem_cons_of_mem _ hm)
      have hy' : '.' ∉ ds := fun hm => hy (List.mem_cons_of_mem _ hm)
      obtain ⟨e1, e2⟩ := ih ds hx' hy' h2
      exact ⟨by rw [h1, e1], e2⟩

lemma osJoin_ext_inj (dir b1 b2 ext : Str) (h1 : b1.head? ≠ some '/')
    (h2 : b2.head? ≠ some '/')
    (heq : osJoin dir b1 ++ ext = osJoin dir b2 ++ ext) : b1 = b2 := by
  have e1 : (b1.head? == some '/') = false := beq_eq_false_iff_ne.mpr h1
  have e2 : (b2.head? == some '/') = false := beq_eq_false_iff_ne.mpr h2
  unfold osJoin at heq
  rw [e1, e2] at heq
  simp only [Bool.false_eq_true, if_false] at heq
  by_cases hc : (dir.isEmpty || endsSlash dir) = true
  · rw [if_pos hc, if_pos hc, List.append_assoc, List.append_assoc] at heq
    exact List.append_cancel_right (List.append_cancel_left heq)
  · rw [if_neg hc, if_neg hc, List.append_assoc, List.append_assoc] at heq
    have h3 := List.append_cancel_left heq
    simp only [List.cons_append, List.cons.injEq, true_and] at h3
    exact List.append_cancel_right h3

lemma stripDots_id (s : Str) (h : '.' ∉ s) : stripDots s = s := by
  have k1 : ∀ l : Str, '.' ∉ l → l.dropWhile (· == '.') = l := by
    intro l hl
    cases l with
    | nil => rfl
    | cons c cs =>
      rw [List.dropWhile_cons]
      have hc : (c == '.') = false := by
        rw [beq_eq_false_iff_ne]
        intro e
        exact hl (by rw [← e]; exact List.mem_cons_self _ _)
      rw [hc]
      simp
  unfold stripDots
  rw [k1 s h, k1 s.reverse (by simpa using h), List.reverse_reverse]

lemma intercalate_two (a b : Str) : List.intercalate ['.'] [a, b] = a ++ '.' :: b := by
  simp [List.intercalate]

lemma intercalate_three (a b c : Str) :
    List.intercalate ['.'] [a, b, c] = a ++ '.' :: (b ++ '.' :: c) := by
  simp [List.intercalate]

lemma notEmpty_of_ne (a : Str) (ha : a ≠ []) : (!a.isEmpty) = true := by
  cases a with
  | nil => exact absurd rfl ha
  | cons c cs => rfl

lemma make_fp_two (dir a b : Str) (ha : a ≠ []) (hb : b ≠ [])
    (hda : '.' ∉ a) (hdb : '.' ∉ b) :
    make_fp dir [a, b] jsonExt = osJoin dir (a ++ '.' :: b) ++ jsonExt := by
  have hfil : ([a, b].filter (fun s => !s.isEmpty)).map stripDots = [a, b] := by
    simp [List.filter_cons, notEmpty_of_ne a ha, notEmpty_of_ne b hb,
      stripDots_id a hda, stripDots_id b hdb]
  unfold make_fp
  rw [hfil, intercalate_two]

lemma make_fp_three (dir a b c : Str) (ha : a ≠ []) (hb : b ≠ []) (hc : c ≠ [])
    (hda : '.' ∉ a) (hdb : '.' ∉ b) (hdc : '.' ∉ c) :
    make_fp dir [a, b, c] jsonExt = osJoin dir (a ++ '.' :: (b ++ '.' :: c)) ++ jsonExt := by
  have hfil : ([a, b, c].filter (fun s => !s.isEmpty)).map stripDots = [a, b, c] := by
    simp [List.filter_cons, notEmpty_of_ne a ha, notEmpty_of_ne b hb, notEmpty_of_ne c hc,
      stripDots_id a hda, stripDots_id b hdb, stripDots_id c hdc]
  unfold make_fp
  rw [hfil, intercalate_three]

lemma head?_append_ne_slash (a rest : Str) (ha : a ≠ []) (hsl : '/' ∉ a) :
    (a ++ rest).head? ≠ some '/' := by
  cases a with
  | nil => exact absurd rfl ha
  | cons c cs =>
    simp only [List.cons_append, List.head?_cons]
    intro h
    injection h with h1
    exact hsl (by rw [← h1]; exact List.mem_cons_self _ _)

/-- C5 (amended): restricted to nonempty, dot-free index and type names with
a slash-free index, the Exporter's file paths are injective on
(index, type, kind): equal paths under the same directory force equal
indices, types and kinds. -/
theorem make_fp_inj (dir i1 t1 i2 t2 : Str) (k1 k2 : FKind)
    (hi1 : i1 ≠ []) (hdi1 : '.' ∉ i1) (hsi1 : '/' ∉ i1)
    (ht1 : t1 ≠ []) (hdt1 : '.' ∉ t1)
    (hi2 : i2 ≠ []) (hdi2 : '.' ∉ i2) (hsi2 : '/' ∉ i2)
    (ht2 : t2 ≠ []) (hdt2 : '.' ∉ t2)
    (heq : fpFor dir i1 t1 k1 = fpFor dir i2 t2 k2) :
    i1 = i2 ∧ t1 = t2 ∧ k1 = k2 := by
  have hmne : ("mapping".data : Str) ≠ [] := by decide
  have hmnd : '.' ∉ ("mapping".data : Str) := by decide
  cases k1 <;> cases k2 <;> simp only [fpFor] at heq
  · rw [make_fp_three dir i1 t1 "mapping".data hi1 ht1 hmne hdi1 hdt1 hmnd,
      make_fp_three dir i2 t2 "mapping".data hi2 ht2 hmne hdi2 hdt2 hmnd] at heq
    have hs := osJoin_ext_inj dir _ _ jsonExt
      (head?_append_ne_slash i1 _ hi1 hsi1) (head?_append_ne_slash i2 _ hi2 hsi2) heq
    obtain ⟨e1, e2⟩ := append_dot_inj i1 i2 _ _ hdi1 hdi2 hs
    obtain ⟨e3, -⟩ := append_dot_inj t1 t2 _ _ hdt1 hdt2 e2
    exact ⟨e1, e3, rfl⟩
  · rw [make_fp_three dir i1 t1 "mapping".data hi1 ht1 hmne hdi1 hdt1 hmnd,
      make_fp_two dir i2 t2 hi2 ht2 hdi2 hdt2] at heq
    have hs := osJoin_ext_inj dir _ _ jsonExt
      (head?_append_ne_slash i1 _ hi1 hsi1) (head?_append_ne_slash i2 _ hi2 hsi2) heq
    obtain ⟨-, e2⟩ := append_dot_inj i1 i2 _ _ hdi1 hdi2 hs
    have : '.' ∈ t2 := by
      rw [← e2]
      exact List.mem_append_right _ (List.mem_cons_self _ _)
    exact absurd this hdt2
  · rw [make_fp_two dir i1 t1 hi1 ht1 hdi1 hdt1,
      make_fp_three dir i2 t2 "mapping".data hi2 ht2 hmne hdi2 hdt2 hmnd] at heq
    have hs := osJoin_ext_inj dir _ _ jsonExt
      (head?_append_ne_slash i1 _ hi1 hsi1) (head?_append_ne_slash i2 _ hi2 hsi2) heq
    obtain ⟨-, e2⟩ := append_dot_inj i1 i2 _ _ hdi1 hdi2 hs
    have : '.' ∈ t1 := by
      rw [e2]
      exact List.mem_append_right _ (List.mem_cons_self _ _)
    exact absurd this hdt1
  · rw [make_fp_two dir i1 t1 hi1 ht1 hdi1 hdt1,
      make_fp_two dir i2 t2 hi2 ht2 hdi2 hdt2] at heq
    have hs := osJoin_ext_inj dir _ _ jsonExt
      (head?_append_ne_slash i1 _ hi1 hsi1) (head?_append_ne_slash i2 _ hi2 hsi2) heq
    obtain ⟨e1, e2⟩ := append_dot_inj i1 i2 _ _ hdi1 hdi2 hs
    exact ⟨e1, e2, rfl⟩

/-- Witness for `make_fp_inj` at concrete names. -/
theorem make_fp_inj_witness :
    "a".data = "a".data ∧ "b".data = "b".data ∧ FKind.doc = FKind.doc :=
  make_fp_inj "d".data "a".data "b".data "a".data "b".data .doc .doc
    (by decide) (by decide) (by decide) (by decide) (by decide)
    (by decide) (by decide) (by decide) (by decide) (by decide) rfl

lemma splitOn_dots (ps : List Str) (h : ∀ s ∈ ps, '.' ∉ s) (h0 : ps ≠ []) :
    (List.intercalate ['.'] ps).splitOn '.' = ps :=
  List.splitOn_intercalate ps '.' h h0

lemma intercalate_four (a b c d : Str) :
    List.intercalate ['.'] [a, b, c, d] = a ++ '.' :: (b ++ '.' :: (c ++ '.' :: d)) := by
  simp [List.intercalate]

lemma endswith_append (x s : Str) : endswith (x ++ s) s = true := by
  unfold endswith
  rw [List.length_append, Nat.add_sub_cancel, List.drop_left]
  simp

lemma isEmpty_false_of_ne (a : Str) (ha : a ≠ []) : a.isEmpty = false := by
  cases a with
  | nil => exact absurd rfl ha
  | cons c cs => rfl

lemma derive_mapping_file (i t : Str) (hi : i ≠ []) (hdi : '.' ∉ i)
    (ht : t ≠ []) (hdt : '.' ∉ t) :
    derive_type_name (List.intercalate ['.'] [i, t, "mapping".data, "json".data]) = some t := by
  have hall : ∀ s ∈ [i, t, "mapping".data, "json".data], '.' ∉ s := by
    intro s hs
    simp only [List.mem_cons, List.not_mem_nil, or_false] at hs
    rcases hs with rfl | rfl | rfl | rfl
    exacts [hdi, hdt, by decide, by decide]
  have hall3 : ∀ s ∈ [i, t, "mapping".data], '.' ∉ s := by
    intro s hs
    simp only [List.mem_cons, List.not_mem_nil, or_false] at hs
    rcases hs with rfl | rfl | rfl
    exacts [hdi, hdt, by decide]
  have hsplit := splitOn_dots [i, t, "mapping".data, "json".data] hall (by simp)
  unfold derive_type_name splitextStem
  rw [hsplit]
  have hlen : ¬([i, t, "mapping".data, "json".data].length ≤ 1) := by simp
  rw [if_neg hlen]
  have hdrop : [i, t, "mapping".data, "json".data].dropLast = [i, t, "mapping".data] := rfl
  rw [hdrop]
  have hne : ([i, t, "mapping".data].all (fun p => p.isEmpty)) = false := by
    simp [List.all_cons, isEmpty_false_of_ne i hi]
  rw [hne]
  simp only [Bool.false_eq_true, if_false]
  rw [splitOn_dots [i, t, "mapping".data] hall3 (by simp)]
  rfl

lemma derive_doc_file (i t : Str) (hi : i ≠ []) (hdi : '.' ∉ i)
    (ht : t ≠ []) (hdt : '.' ∉ t) :
    derive_type_name (List.intercalate ['.'] [i, t, "json".data]) = some t := by
  have hall : ∀ s ∈ [i, t, "json".data], '.' ∉ s := by
    intro s hs
    simp only [List.mem_cons, List.not_mem_nil, or_false] at hs
    rcases hs with rfl | rfl | rfl
    exacts [hdi, hdt, by decide]
  have hall2 : ∀ s ∈ [i, t], '.' ∉ s := by
    intro s hs
    simp only [List.mem_cons, List.not_mem_nil, or_false] at hs
    rcases hs with rfl | rfl
    exacts [hdi, hdt]
  have hsplit := splitOn_dots [i, t, "json".data] hall (by simp)
  unfold derive_type_name splitextStem
  rw [hsplit]
  have hlen : ¬([i, t, "json".data].length ≤ 1) := by simp
  rw [if_neg hlen]
  have hdrop : [i, t, "json".data].dropLast = [i, t] := rfl
  rw [hdrop]
  have hne : ([i, t].all (fun p => p.isEmpty)) = false := by
    simp [List.all_cons, isEmpty_false_of_ne i hi]
  rw [hne]
  simp only [Bool.false_eq_true, if_false]
  rw [splitOn_dots [i, t] hall2 (by simp)]
  rfl

lemma mapping_file_endswith (i t : Str) :
    endswith (List.intercalate ['.'] [i, t, "mapping".data, "json".data]) ".json".data
      = true := by
  have he : List.intercalate ['.'] [i, t, "mapping".data, "json".data] =
      (i ++ '.' :: (t ++ '.' :: "mapping".data)) ++ ".json".data := by
    rw [intercalate_four]
    simp [List.append_assoc]
  rw [he]
  exact endswith_append _ _

lemma doc_file_endswith (i t : Str) :
    endswith (List.intercalate ['.'] [i, t, "json".data]) ".json".data = true := by
  have he : List.intercalate ['.'] [i, t, "json".data] =
      (i ++ '.' :: t) ++ ".json".data := by
    rw [intercalate_three]
    simp [List.append_assoc]
  rw [he]
  exact endswith_append _ _

lemma uploadFiles_cons_json (env : Env) (f : Str) (rest : List Str) (t : Str)
    (hjson : endswith f ".json".data = true) (hder : derive_type_name f = some t) :
    uploadFiles env (f :: rest) =
      pseq (upload_mapping env t) (pseq (upload_data env t) (uploadFiles env rest)) := by
  have e : uploadFiles env (f :: rest) =
      if endswith f ".json".data then
        (match derive_type_name f with
         | none => ([], some PyErr.indexError)
         | some t => pseq (upload_mapping env t) (pseq (upload_data env t) (uploadFiles env rest)))
      else uploadFiles env rest := rfl
  rw [e, hjson, hder]
  rfl

lemma put_docs_eq_map (uri : Str) (idx : Option Str) (t : Str) (hits : List Hit) :
    put_docs uri idx t hits = hits.map (mkPut uri idx t) := by
  induction hits with
  | nil => rfl
  | cons h rest ih => simp [put_docs, ih]

/-- C4 fails as stated: for index `a.b` (dots are legal in index names, as in
the `__main__` example `ems-other_log-2015.09.15`) and type `c`, the scan
derives type `b` from `a.b.c.mapping.json` — `rsplit('.')` with no maxsplit
splits at every dot and `[1]` takes the second component from the left — so
`upload` looks for the nonexistent files of type `b` and aborts with
`fileNotFound`, uploading nothing. -/
def envDotIdx : Env where
  uri := "u".data
  index_name := some "a.b".data
  dirname := some "dir".data
  dirExists := true
  mappingBody := []
  scrollInit := fun _ _ => ⟨none, []⟩
  scrollCont := fun _ => ⟨none, []⟩
  files := fun p =>
    if p = "dir/a.b.c.mapping.json".data then some (.json (.obj []))
    else if p = "dir/a.b.c.json".data then some (.docs [])
    else none
  listing := ["a.b.c.mapping.json".data, "a.b.c.json".data]

/-- C4 counterexample (see `envDotIdx`). -/
theorem upload_scan_misderives_type :
    derive_type_name "a.b.c.mapping.json".data = some "b".data ∧
    some "b".data ≠ some "c".data ∧
    upload envDotIdx none = ([], some .fileNotFound) :=
  ⟨by decide, by decide, rfl⟩

/-- C4 (amended): for every nonempty dot-free index and type name, when
`upload` runs with no type over a directory listing exactly the Exporter's
two files `{index}.{type}.mapping.json` and `{index}.{type}.json` (both
present, the latter holding Document Hits), the scan derives the type name
`{type}` from each of the two files and uploads that type's mapping and then
its documents, once per file — hence twice overall. -/
theorem upload_scan_derives_type
    (env : Env) (d i t : Str) (cM : FileContent) (hits : List Hit)
    (hd : env.dirname = some d) (hd0 : d ≠ []) (hex : env.dirExists = true)
    (hidx : env.index_name = some i)
    (hi : i ≠ []) (hdi : '.' ∉ i) (ht : t ≠ []) (hdt : '.' ∉ t)
    (hlist : env.listing =
      [List.intercalate ['.'] [i, t, "mapping".data, "json".data],
       List.intercalate ['.'] [i, t, "json".data]])
    (hfm : env.files (make_fp d [i, t, "mapping".data] jsonExt) = some cM)
    (hfd : env.files (make_fp d [i, t] jsonExt) = some (.docs hits)) :
    derive_type_name (List.intercalate ['.'] [i, t, "mapping".data, "json".data]) = some t ∧
    derive_type_name (List.intercalate ['.'] [i, t, "json".data]) = some t ∧
    upload env none =
      ((Act.putJson (make_url env.uri [i, "_mapping".data, t] []) cM ::
          put_docs env.uri (some i) t hits) ++
        (Act.putJson (make_url env.uri [i, "_mapping".data, t] []) cM ::
          put_docs env.uri (some i) t hits), none) := by
  have dm := derive_mapping_file i t hi hdi ht hdt
  have dd := derive_doc_file i t hi hdi ht hdt
  refine ⟨dm, dd, ?_⟩
  have um : upload_mapping env t =
      ([Act.putJson (make_url env.uri [i, "_mapping".data, t] []) cM], none) := by
    unfold upload_mapping
    simp only [hd, hidx, Option.getD_some]
    rw [hfm]
  have ud : upload_data env t = (put_docs env.uri (some i) t hits, none) := by
    unfold upload_data
    simp only [hd, hidx, Option.getD_some]
    rw [hfd]
  have hguard : dirOk env = true := by
    simp [dirOk, hd, hex, isEmpty_false_of_ne d hd0]
  unfold upload
  rw [hguard]
  simp only [if_true]
  rw [hlist,
    uploadFiles_cons_json env _ _ t (mapping_file_endswith i t) dm,
    uploadFiles_cons_json env _ _ t (doc_file_endswith i t) dd,
    um, ud]
  simp [pseq, uploadFiles]

/-- A concrete scan environment: the fixture index `test` with type `data`. -/
def envScanDemo : Env where
  uri := "u".data
  index_name := some "test".data
  dirname := some "dir".data
  dirExists := true
  mappingBody := []
  scrollInit := fun _ _ => ⟨none, []⟩
  scrollCont := fun _ => ⟨none, []⟩
  files := fun p =>
    if p = "dir/test.data.mapping.json".data then some (.json (.obj []))
    else if p = "dir/test.data.json".data then
      some (.docs [⟨some "1".data, some .null⟩])
    else none
  listing := ["test.data.mapping.json".data, "test.data.json".data]

/-- Witness for `upload_scan_derives_type` on `envScanDemo`. -/
theorem upload_scan_derives_type_witness :
    derive_type_name "test.data.mapping.json".data = some "data".data ∧
    derive_type_name "test.data.json".data = some "data".data ∧
    upload envScanDemo none =
      ((Act.putJson (make_url envScanDemo.uri ["test".data, "_mapping".data, "data".data] [])
            (.json (.obj [])) ::
          put_docs envScanDemo.uri (some "test".data) "data".data
            [⟨some "1".data, some .null⟩]) ++
        (Act.putJson (make_url envScanDemo.uri ["test".data, "_mapping".data, "data".data] [])
            (.json (.obj [])) ::
          put_docs envScanDemo.uri (some "test".data) "data".data
            [⟨some "1".data, some .null⟩]), none) :=
  upload_scan_derives_type envScanDemo "dir".data "test".data "data".data
    (.json (.obj [])) [⟨some "1".data, some .null⟩] rfl (by decide) rfl rfl
    (by decide) (by decide) (by decide) (by decide) (by decide) rfl rfl

/-- C6: `upload_data` fails with `fileNotFound` exactly when the document
file `{dir}/{index}.{type}.json` is absent; otherwise it issues exactly one
PUT per Document Hit of the file, in file order (`List.map`, so hits with
duplicate ids each get their own PUT and none is rejected locally), each
built by `mkPut`: a PUT of the hit's `_source` to the URL
`make_url uri [index, type, _id] [(op_type, create)]`. -/
theorem upload_data_puts_each_hit (env : Env) (t d : Str) (hd : env.dirname = some d) :
    (env.files (make_fp d [env.index_name.getD [], t] jsonExt) = none →
      upload_data env t = ([], some .fileNotFound)) ∧
    ∀ hits, env.files (make_fp d [env.index_name.getD [], t] jsonExt) = some (.docs hits) →
      upload_data env t = (hits.map (mkPut env.uri env.index_name t), none) := by
  constructor
  · intro hnone
    unfold upload_data
    simp only [hd, Option.getD_some]
    rw [hnone]
  · intro hits hsome
    unfold upload_data
    simp only [hd, Option.getD_some]
    rw [hsome]
    simp only []
    rw [put_docs_eq_map]

/-- A document file holding two hits with the same `_id`. -/
def envDupDocs : Env where
  uri := "u".data
  index_name := some "i".data
  dirname := some "dir".data
  dirExists := true
  mappingBody := []
  scrollInit := fun _ _ => ⟨none, []⟩
  scrollCont := fun _ => ⟨none, []⟩
  files := fun p =>
    if p = "dir/i.t.json".data then
      some (.docs [⟨some "1".data, some (.num 1)⟩, ⟨some "1".data, some (.num 2)⟩])
    else none
  listing := []

/-- Witness for `upload_data_puts_each_hit`: both duplicate-id hits are PUT,
and a missing file for type `x` fails with `fileNotFound`. -/
theorem upload_data_puts_each_hit_witness :
    upload_data envDupDocs "t".data =
      ([⟨some "1".data, some (.num 1)⟩, ⟨some "1".data, some (.num 2)⟩].map
        (mkPut envDupDocs.uri envDupDocs.index_name "t".data), none) ∧
    upload_data envDupDocs "x".data = ([], some .fileNotFound) :=
  ⟨(upload_data_puts_each_hit envDupDocs "t".data "dir".data rfl).2
      [⟨some "1".data, some (.num 1)⟩, ⟨some "1".data, some (.num 2)⟩] rfl,
   (upload_data_puts_each_hit envDupDocs "x".data "dir".data rfl).1 rfl⟩

/-- C7: with a missing (or unset) configured directory, both entry points
fail with `directoryNotFound` before any HTTP request is issued or file
touched (the trace is empty); with the directory present, `save` is exactly
`dump_mapping` sequenced before `dump_data`, `pseq` propagating any
underlying failure unchanged and running nothing after it. -/
theorem save_upload_dir_guard (env : Env) (fuel : Nat) :
    (dirOk env = false →
      save env fuel = ([], some .directoryNotFound) ∧
      upload env none = ([], some .directoryNotFound)) ∧
    (dirOk env = true → save env fuel = pseq (dump_mapping env) (dump_data env fuel)) := by
  constructor
  · intro h
    constructor
    · unfold save
      rw [h]
      rfl
    · unfold upload
      rw [h]
      rfl
  · intro h
    unfold save
    rw [h]
    rfl

/-- An environment whose configured directory does not exist. -/
def envNoDir : Env where
  uri := "u".data
  index_name := some "i".data
  dirname := some "gone".data
  dirExists := false
  mappingBody := []
  scrollInit := fun _ _ => ⟨none, []⟩
  scrollCont := fun _ => ⟨none, []⟩
  files := fun _ => none
  listing := []

/-- Witness for `save_upload_dir_guard` on a missing and a present
directory. -/
theorem save_upload_dir_guard_witness :
    save envNoDir 1 = ([], some .directoryNotFound) ∧
    upload envNoDir none = ([], some .directoryNotFound) ∧
    save envDupDocs 1 = pseq (dump_mapping envDupDocs) (dump_data envDupDocs 1) :=
  ⟨((save_upload_dir_guard envNoDir 1).1 rfl).1,
   ((save_upload_dir_guard envNoDir 1).1 rfl).2,
   (save_upload_dir_guard envDupDocs 1).2 rfl⟩

lemma intercalate_one (sep : List Char) (a : Str) : List.intercalate sep [a] = a := by
  simp [List.intercalate]

lemma intercalate_slash_two (a b : Str) :
    List.intercalate ['/'] [a, b] = a ++ '/' :: b := by
  simp [List.intercalate]

lemma make_url_drop_empty_id (uri i t : Str) (hi : i ≠ []) (ht : t ≠ [])
    (hu : endsSlash uri = false) :
    make_url uri [i, t, []] [("op_type".data, "create".data)] =
      uri ++ '/' :: (i ++ '/' :: (t ++ '?' :: "op_type=create".data)) := by
  unfold make_url
  rw [hu]
  have hfil : ([i, t, ([] : Str)].filter (fun s => !s.isEmpty)) = [i, t] := by
    simp [List.filter_cons, notEmpty_of_ne i hi, notEmpty_of_ne t ht]
  rw [hfil, intercalate_slash_two]
  have hq : List.intercalate ['&']
      ([(("op_type".data : Str), ("create".data : Str))].map
        (fun kv => kv.1 ++ '=' :: kv.2)) = "op_type=create".data := by
    rw [List.map_cons, List.map_nil, intercalate_one]
    decide
  rw [hq]
  have hne : (("op_type=create".data : Str).isEmpty) = false := by decide
  simp [hne, List.append_assoc]

/-- C10: a Document Hit whose `_id` is absent (or the falsy empty string)
does not make `upload_data` fail: the run still succeeds, and the hit's PUT
— present in the issued actions — goes to the id-less URL
`{uri}/{index}/{type}?op_type=create` (the falsy segment is dropped by
`make_url`), with the hit's `_source` (Python `None` when absent) as body. -/
theorem upload_falsy_id_still_put (env : Env) (d i t : Str) (hits : List Hit)
    (hd : env.dirname = some d) (hidx : env.index_name = some i)
    (hi : i ≠ []) (ht : t ≠ []) (hu : endsSlash env.uri = false)
    (hfile : env.files (make_fp d [i, t] jsonExt) = some (.docs hits)) :
    (upload_data env t).2 = none ∧
    ∀ h ∈ hits, (h._id = none ∨ h._id = some []) →
      mkPut env.uri env.index_name t h =
        .putDoc (env.uri ++ '/' :: (i ++ '/' :: (t ++ '?' :: "op_type=create".data)))
          h._source ∧
      mkPut env.uri env.index_name t h ∈ (upload_data env t).1 := by
  have hud : upload_data env t = (put_docs env.uri env.index_name t hits, none) := by
    unfold upload_data
    simp only [hd, hidx, Option.getD_some]
    rw [hfile]
  refine ⟨by rw [hud], ?_⟩
  intro h hmem hfalsy
  constructor
  · unfold mkPut
    simp only [hidx, Option.getD_some]
    have hid : h._id.getD [] = [] := by
      rcases hfalsy with h1 | h1 <;> rw [h1] <;> rfl
    rw [hid, make_url_drop_empty_id env.uri i t hi ht hu]
  · rw [hud]
    simp only []
    rw [put_docs_eq_map]
    exact List.mem_map_of_mem _ hmem

/-- A document file holding one hit with no `_id` key. -/
def envNoIdDoc : Env where
  uri := "u".data
  index_name := some "i".data
  dirname := some "dir".data
  dirExists := true
  mappingBody := []
  scrollInit := fun _ _ => ⟨none, []⟩
  scrollCont := fun _ => ⟨none, []⟩
  files := fun p =>
    if p = "dir/i.t.json".data then some (.docs [⟨none, some (.num 5)⟩]) else none
  listing := []

/-- Witness for `upload_falsy_id_still_put` on `envNoIdDoc`. -/
theorem upload_falsy_id_still_put_witness :
    (upload_data envNoIdDoc "t".data).2 = none ∧
    ∀ h ∈ [(⟨none, some (.num 5)⟩ : Hit)], (h._id = none ∨ h._id = some []) →
      mkPut envNoIdDoc.uri envNoIdDoc.index_name "t".data h =
        .putDoc (envNoIdDoc.uri ++ '/' ::
          ("i".data ++ '/' :: ("t".data ++ '?' :: "op_type=create".data)))
          h._source ∧
      mkPut envNoIdDoc.uri envNoIdDoc.index_name "t".data h ∈
        (upload_data envNoIdDoc "t".data).1 :=
  upload_falsy_id_still_put envNoIdDoc "dir".data "i".data "t".data
    [⟨none, some (.num 5)⟩] rfl rfl (by decide) (by decide) rfl rfl
